import Mathlib

/-!
Verification of the optimizer parameter-group builder and auxiliary utilities
of `src/utils/utils.py` (layer-wise learning-rate decay, the `Accuracy`
metric, and the `extras` config hook), via a shallow embedding in Lean.

Tensors are modelled as opaque handles carrying an identity and torch's
`requires_grad` flag; learning rates, weight decays and tensor entries are
modelled as rationals.
-/

/-- A tensor parameter handle: an identity plus torch's `requires_grad`
trainability flag. -/
structure Param where
  id : Nat
  requires_grad : Bool
  deriving DecidableEq

/-- A named parameter collection, as produced by `module.named_parameters()`. -/
abbrev NamedParams : Type := List (String × Param)

/-- The model tree traversed by `layerwise_learning_rate_decay`: a task head
`model.fc`, and a backbone `model.model` with an `embeddings` block and the
ordered encoder-layer sequence `model.model.encoder.layer`. -/
structure Model where
  fc : NamedParams
  embeddings : NamedParams
  encoderLayers : List NamedParams
  deriving DecidableEq

/-- `model.parameters()`: every parameter of the tree.  Torch enumerates all
registered parameters, whether or not `requires_grad` is set. -/
def Model.parameters (m : Model) : List Param :=
  m.fc.map Prod.snd ++ m.embeddings.map Prod.snd ++
    (m.encoderLayers.map (fun l => l.map Prod.snd)).flatten

/-- The backbone's parameters: the embeddings block plus every encoder layer. -/
def Model.backboneParams (m : Model) : List Param :=
  m.embeddings.map Prod.snd ++ (m.encoderLayers.map (fun l => l.map Prod.snd)).flatten

/-- The task head's parameters (`model.fc`). -/
def Model.fcParams (m : Model) : List Param :=
  m.fc.map Prod.snd

/-- Modelled from the spec for comparison: the model's "full
trainable-parameter set", i.e. the parameters whose `requires_grad` flag is
set.  (The source's `model.parameters()` does not filter on trainability.) -/
def Model.trainableParameters (m : Model) : List Param :=
  m.parameters.filter (fun p => p.requires_grad)

/-- Python's substring test `sub in s`, on explicit character lists. -/
def charsOccur (sub : List Char) : List Char → Bool
  | [] => sub.isEmpty
  | c :: rest => sub.isPrefixOf (c :: rest) || charsOccur sub rest

/-- Python's substring test `sub in s` on strings. -/
def strOccur (sub s : String) : Bool :=
  charsOccur sub.data s.data

/-- The fixed pattern list `no_decay = ["bias", "LayerNorm.weight"]`. -/
def no_decay : List String := ["bias", "LayerNorm.weight"]

/-- The source's decay-exemption test `any(nd in n for nd in no_decay)`. -/
def hasNoDecay (n : String) : Bool :=
  no_decay.any (fun nd => strOccur nd n)

/-- One optimizer parameter group, the record
`{"params": ..., "weight_decay": ..., "lr": ...}`. -/
structure ParamGroup where
  params : List Param
  weight_decay : ℚ
  lr : ℚ
  deriving DecidableEq

/-- The two result shapes of `layerwise_learning_rate_decay`: the group list of
the enabled branch, or the bare `model.parameters()` of the disabled branch. -/
inductive LLRDResult where
  | grouped (groups : List ParamGroup)
  | ungrouped (params : List Param)
  deriving DecidableEq

/-- The group list carried by a result (empty for the ungrouped shape). -/
def groupsOf : LLRDResult → List ParamGroup
  | LLRDResult.grouped gs => gs
  | LLRDResult.ungrouped _ => []

/-- The flat parameter list carried by a result (empty for the grouped shape). -/
def ungroupedOf : LLRDResult → List Param
  | LLRDResult.grouped _ => []
  | LLRDResult.ungrouped ps => ps

/-- The head-specific group the source builds first — and then discards when it
re-initializes `optimizer_grouped_parameters` to `[]` before the layer loop. -/
def headGroup (m : Model) (learning_rate weight_decay : ℚ) : ParamGroup :=
  ⟨m.fc.map Prod.snd, weight_decay, learning_rate⟩

/-- `layers = [model.model.embeddings] + list(model.model.encoder.layer)`
followed by `layers.reverse()`: the layer nearest the output comes first and
the embeddings block last. -/
def reversedLayers (m : Model) : List NamedParams :=
  ([m.embeddings] ++ m.encoderLayers).reverse

/-- The `for layer in layers` loop of the enabled branch: the running rate is
multiplied by the factor first, then the layer's two groups (decayed and
decay-exempt) are appended at that rate. -/
def buildGroups (weight_decay f lr : ℚ) : List NamedParams → List ParamGroup
  | [] => []
  | layer :: rest =>
    ⟨(layer.filter (fun np => !hasNoDecay np.1)).map Prod.snd, weight_decay, lr * f⟩ ::
    ⟨(layer.filter (fun np => hasNoDecay np.1)).map Prod.snd, 0, lr * f⟩ ::
    buildGroups weight_decay f (lr * f) rest

/-- Shallow embedding of `layerwise_learning_rate_decay`.  The enabled branch
binds the head group first and then rebinds the same local to `[]` (mirroring
the source's overwritten `optimizer_grouped_parameters`) before running the
layer loop; the disabled branch returns `model.parameters()`. -/
def layerwise_learning_rate_decay (model : Model)
    (learning_rate weight_decay layerwise_learning_rate_factor : ℚ)
    (layerwise_learning_rate_flag : Bool) : LLRDResult :=
  if layerwise_learning_rate_flag then
    let optimizer_grouped_parameters := [headGroup model learning_rate weight_decay]
    let layers := reversedLayers model
    let lr := learning_rate
    let optimizer_grouped_parameters :=
      buildGroups weight_decay layerwise_learning_rate_factor lr layers
    LLRDResult.grouped optimizer_grouped_parameters
  else
    LLRDResult.ungrouped model.parameters

/-- The state of the `Accuracy` metric: the running `correct` and `total`
counters registered with `add_state` (default 0, summed across workers). -/
structure AccState where
  correct : Nat
  total : Nat
  deriving DecidableEq

/-- A fresh metric state (both `add_state` defaults are the 0 tensor). -/
def AccState.init : AccState := ⟨0, 0⟩

/-- `update(less_toxic, more_toxic)`: `preds = less_toxic < more_toxic`;
`correct` grows by `preds.sum()` and `total` by `preds.numel()`. -/
def AccState.update (s : AccState) (less_toxic more_toxic : List ℚ) : AccState :=
  let preds := List.zipWith (fun a b => decide (a < b)) less_toxic more_toxic
  ⟨s.correct + preds.count true, s.total + preds.length⟩

/-- `compute()`: `self.correct.float() / self.total`. -/
def AccState.compute (s : AccState) : ℚ :=
  (s.correct : ℚ) / (s.total : ℚ)

/-- `dist_reduce_fx="sum"`: merging two workers' states sums both counters. -/
def AccState.merge (s t : AccState) : AccState :=
  ⟨s.correct + t.correct, s.total + t.total⟩

/-- The `config.trainer` fields read by `extras`; `gpus = 0` models an absent
or falsy entry (`config.trainer.get("gpus")`). -/
structure TrainerConf where
  fast_dev_run : Bool
  gpus : Nat
  deriving DecidableEq

/-- The `config.datamodule` fields read by `extras`. -/
structure DataConf where
  pin_memory : Bool
  num_workers : Nat
  deriving DecidableEq

/-- The Hydra config as `extras` sees it.  An empty `name` models a missing
name (Python falsiness of `config.get("name")`); `others` stands for every
remaining config entry, none of which `extras` reads or writes. -/
structure Config where
  ignore_warnings : Bool
  experiment_mode : Bool
  name : String
  trainer : TrainerConf
  datamodule : DataConf
  others : List (String × String)
  deriving DecidableEq

/-- Shallow embedding of `extras`.  `none` models the `exit()` on the
experiment-mode-without-name path; otherwise the (possibly mutated) config is
returned.  The `ignore_warnings` branch only toggles the global Python warning
filter and touches no config field, so it does not appear here. -/
def extras (config : Config) : Option Config :=
  if config.experiment_mode = true ∧ config.name = "" then
    none
  else if config.trainer.fast_dev_run = true then
    some ⟨config.ignore_warnings, config.experiment_mode, config.name,
      ⟨config.trainer.fast_dev_run,
        if config.trainer.gpus ≠ 0 then 0 else config.trainer.gpus⟩,
      ⟨(if config.datamodule.pin_memory = true then false
          else config.datamodule.pin_memory),
        if config.datamodule.num_workers ≠ 0 then 0
          else config.datamodule.num_workers⟩,
      config.others⟩
  else
    some config

/-- A concrete (trainable) tensor handle for test models. -/
def witParam (i : Nat) : Param := ⟨i, true⟩

/-- One concrete BERT-style encoder layer (mixing decayed and decay-exempt
parameter names). -/
def witEncoderLayer : NamedParams :=
  [("attention.self.query.weight", witParam 5),
   ("attention.self.query.bias", witParam 6),
   ("output.LayerNorm.weight", witParam 7)]

/-- A concrete embeddings block. -/
def witEmbeddings : NamedParams :=
  [("word_embeddings.weight", witParam 2),
   ("LayerNorm.weight", witParam 3),
   ("LayerNorm.bias", witParam 4)]

/-- A concrete model with a 2-parameter head and one encoder layer. -/
def witModel : Model :=
  ⟨[("weight", witParam 0), ("bias", witParam 1)], witEmbeddings, [witEncoderLayer]⟩

/-- A minimal concrete model: one head parameter, one embedding parameter, no
encoder layers. -/
def tinyModel : Model :=
  ⟨[("weight", witParam 10)], [("emb.weight", witParam 11)], []⟩

/-- A concrete model whose head parameter is frozen (`requires_grad = False`),
as `freeze_layer` produces. -/
def frozenModel : Model :=
  ⟨[("weight", ⟨20, false⟩)], [("emb.weight", witParam 21)], []⟩

/-- A concrete config with a truthy gpu count, for the fast-dev-run branch. -/
def cgpu : Config :=
  ⟨false, false, "run", ⟨true, 1⟩, ⟨true, 4⟩, []⟩

/-- A concrete fast-dev-run config with other fields populated. -/
def cw9 : Config :=
  ⟨true, false, "x", ⟨true, 2⟩, ⟨true, 4⟩, [("seed", "42")]⟩

/-- A concrete experiment-mode config with no name set. -/
def cexp : Config :=
  ⟨false, true, "", ⟨false, 0⟩, ⟨false, 0⟩, [("seed", "1")]⟩

/-- The layer loop emits exactly two groups per processed layer. -/
theorem buildGroups_length (wd f : ℚ) (layers : List NamedParams) :
    ∀ lr : ℚ, (buildGroups wd f lr layers).length = 2 * layers.length := by
  induction layers with
  | nil => intro lr; simp [buildGroups]
  | cons L rest ih =>
    intro lr
    simp only [buildGroups, List.length_cons, ih (lr * f), List.length]
    ring

/-- The group at even index `2*k` holds the decayed (non-exempt) subset of the
`k`-th processed layer, at rate `lr * f^(k+1)`. -/
theorem buildGroups_getElem_even (wd f : ℚ) (layers : List NamedParams) :
    ∀ (lr : ℚ) (k : ℕ) (layer : NamedParams), layers[k]? = some layer →
      (buildGroups wd f lr layers)[2 * k]? =
        some ⟨(layer.filter (fun np => !hasNoDecay np.1)).map Prod.snd, wd,
          lr * f ^ (k + 1)⟩ := by
  induction layers with
  | nil => intro lr k layer h; simp at h
  | cons L rest ih =>
    intro lr k layer h
    cases k with
    | zero =>
      simp only [List.getElem?_cons_zero, Option.some_inj] at h
      subst h
      simp [buildGroups, pow_one]
    | succ k =>
      have h2 : rest[k]? = some layer := by simpa using h
      have h3 : 2 * (k + 1) = 2 * k + 1 + 1 := by ring
      rw [h3]
      show (buildGroups wd f lr (L :: rest))[2 * k + 1 + 1]? = _
      simp only [buildGroups, List.getElem?_cons_succ]
      rw [ih (lr * f) k layer h2]
      congr 2
      ring

/-- The group at odd index `2*k + 1` holds the decay-exempt subset of the
`k`-th processed layer, with weight decay 0, at rate `lr * f^(k+1)`. -/
theorem buildGroups_getElem_odd (wd f : ℚ) (layers : List NamedParams) :
    ∀ (lr : ℚ) (k : ℕ) (layer : NamedParams), layers[k]? = some layer →
      (buildGroups wd f lr layers)[2 * k + 1]? =
        some ⟨(layer.filter (fun np => hasNoDecay np.1)).map Prod.snd, 0,
          lr * f ^ (k + 1)⟩ := by
  induction layers with
  | nil => intro lr k layer h; simp at h
  | cons L rest ih =>
    intro lr k layer h
    cases k with
    | zero =>
      simp only [List.getElem?_cons_zero, Option.some_inj] at h
      subst h
      simp [buildGroups, pow_one]
    | succ k =>
      have h2 : rest[k]? = some layer := by simpa using h
      have h3 : 2 * (k + 1) + 1 = 2 * k + 1 + 1 + 1 := by ring
      rw [h3]
      show (buildGroups wd f lr (L :: rest))[2 * k + 1 + 1 + 1]? = _
      simp only [buildGroups, List.getElem?_cons_succ]
      rw [ih (lr * f) k layer h2]
      congr 2
      ring

/-- Every group at index `i` carries learning rate `lr * f^(i/2 + 1)`. -/
theorem buildGroups_lr (wd f : ℚ) (layers : List NamedParams) :
    ∀ (lr : ℚ) (i : ℕ) (g : ParamGroup), (buildGroups wd f lr layers)[i]? = some g →
      g.lr = lr * f ^ (i / 2 + 1) := by
  induction layers with
  | nil => intro lr i g h; simp [buildGroups] at h
  | cons L rest ih =>
    intro lr i g h
    match i with
    | 0 =>
      simp only [buildGroups, List.getElem?_cons_zero, Option.some_inj] at h
      rw [← h]
      simp [pow_one]
    | 1 =>
      simp only [buildGroups, List.getElem?_cons_succ, List.getElem?_cons_zero,
        Option.some_inj] at h
      rw [← h]
      simp [pow_one]
    | (i + 2) =>
      have h2 : (buildGroups wd f (lr * f) rest)[i]? = some g := by
        simpa [buildGroups, List.getElem?_cons_succ] using h
      have h3 := ih (lr * f) i g h2
      have h4 : (i + 2) / 2 = i / 2 + 1 := by omega
      rw [h4, h3]
      ring

/-- Every parameter in an emitted group comes from one of the looped layers. -/
theorem mem_buildGroups_params (wd f : ℚ) (layers : List NamedParams) :
    ∀ (lr : ℚ) (g : ParamGroup) (p : Param), g ∈ buildGroups wd f lr layers →
      p ∈ g.params → ∃ layer ∈ layers, ∃ n, (n, p) ∈ layer := by
  induction layers with
  | nil => intro lr g p hg _; simp [buildGroups] at hg
  | cons L rest ih =>
    intro lr g p hg hp
    simp only [buildGroups, List.mem_cons] at hg
    rcases hg with hg | hg | hg
    · subst hg
      simp only [List.mem_map] at hp
      obtain ⟨np, hnp, rfl⟩ := hp
      exact ⟨L, List.mem_cons_self _ _, np.1, List.mem_of_mem_filter hnp⟩
    · subst hg
      simp only [List.mem_map] at hp
      obtain ⟨np, hnp, rfl⟩ := hp
      exact ⟨L, List.mem_cons_self _ _, np.1, List.mem_of_mem_filter hnp⟩
    · obtain ⟨layer, hlayer, n, hn⟩ := ih (lr * f) g p hg hp
      exact ⟨layer, List.mem_cons_of_mem _ hlayer, n, hn⟩

/-- The concatenation of all emitted groups' parameter lists is a permutation
of the concatenation of the looped layers' parameter lists. -/
theorem buildGroups_params_perm (wd f : ℚ) (layers : List NamedParams) :
    ∀ lr : ℚ, ((buildGroups wd f lr layers).map ParamGroup.params).flatten.Perm
      ((layers.map (fun l => l.map Prod.snd)).flatten) := by
  induction layers with
  | nil => intro lr; simp [buildGroups]
  | cons L rest ih =>
    intro lr
    simp only [buildGroups, List.map_cons, List.flatten_cons]
    have hpart : ((L.filter (fun np => !hasNoDecay np.1)) ++
        (L.filter (fun np => hasNoDecay np.1))).Perm L := by
      have h := List.filter_append_perm (fun np => !hasNoDecay np.1) L
      simpa [Bool.not_not] using h
    have hstep := List.Perm.append (hpart.map Prod.snd) (ih (lr * f))
    rw [List.map_append] at hstep
    rw [← List.append_assoc]
    exact hstep

/-- The enabled branch returns exactly the layer loop's output on the reversed
layer sequence (the initial head-group binding is dead). -/
theorem enabled_eq_buildGroups (m : Model) (lr wd f : ℚ) :
    layerwise_learning_rate_decay m lr wd f true =
      LLRDResult.grouped (buildGroups wd f lr (reversedLayers m)) := rfl

/-- The backbone parameter list, as the flattening of the unreversed layer
sequence. -/
theorem backboneParams_eq_flatten (m : Model) :
    m.backboneParams =
      ((m.embeddings :: m.encoderLayers).map (fun l => l.map Prod.snd)).flatten := by
  simp [Model.backboneParams, List.map_cons, List.flatten_cons]

/-- All parameters of all groups of the enabled branch are, up to permutation,
exactly the backbone's parameters. -/
theorem enabled_params_perm (m : Model) (lr wd f : ℚ) :
    ((groupsOf (layerwise_learning_rate_decay m lr wd f true)).map
      ParamGroup.params).flatten.Perm m.backboneParams := by
  rw [enabled_eq_buildGroups]
  have h1 := buildGroups_params_perm wd f (reversedLayers m) lr
  have h2 : ((reversedLayers m).map (fun l => l.map Prod.snd)).flatten.Perm
      ((m.embeddings :: m.encoderLayers).map (fun l => l.map Prod.snd)).flatten := by
    have hrev : (reversedLayers m).Perm (m.embeddings :: m.encoderLayers) := by
      simpa [reversedLayers] using
        List.reverse_perm (m.embeddings :: m.encoderLayers)
    exact (hrev.map (fun l => l.map Prod.snd)).flatten
  rw [backboneParams_eq_flatten]
  exact (h1.trans h2)

/-- Any parameter of any group of the enabled branch is a backbone parameter. -/
theorem mem_enabled_group_backbone (m : Model) (lr wd f : ℚ) (g : ParamGroup)
    (p : Param) (hg : g ∈ groupsOf (layerwise_learning_rate_decay m lr wd f true))
    (hp : p ∈ g.params) : p ∈ m.backboneParams := by
  rw [enabled_eq_buildGroups] at hg
  obtain ⟨layer, hlayer, n, hn⟩ :=
    mem_buildGroups_params wd f (reversedLayers m) lr g p hg hp
  have hlayer2 : layer ∈ m.embeddings :: m.encoderLayers := by
    have h : layer ∈ m.encoderLayers ∨ layer = m.embeddings := by
      simpa [reversedLayers] using hlayer
    rcases h with h | h
    · exact List.mem_cons_of_mem _ h
    · rw [h]
      exact List.mem_cons_self _ _
  have hpmem : p ∈ layer.map Prod.snd := List.mem_map.2 ⟨(n, p), hn, rfl⟩
  rcases List.mem_cons.1 hlayer2 with h | h
  · subst h
    exact List.mem_append.2 (Or.inl hpmem)
  · refine List.mem_append.2 (Or.inr ?_)
    exact List.mem_flatten.2 ⟨layer.map Prod.snd, List.mem_map.2 ⟨layer, h, rfl⟩, hpmem⟩

/-- The number of groups containing `p` is at most the total multiplicity of
`p` over all groups' parameter lists. -/
theorem length_filter_le_sum_count (p : Param) (gs : List ParamGroup) :
    (gs.filter (fun g => decide (p ∈ g.params))).length ≤
      (gs.map (fun g => g.params.count p)).sum := by
  induction gs with
  | nil => simp
  | cons g rest ih =>
    by_cases h : p ∈ g.params
    · have h1 : 1 ≤ g.params.count p := List.count_pos_iff.2 h
      simp [List.filter_cons, h]
      omega
    · simp [List.filter_cons, h]
      omega

/-- Counting `true` in elementwise `a < b` equals the number of positions of
the zipped list where the first component is below the second. -/
theorem count_zipWith_lt_eq_filter_zip (a : List ℚ) :
    ∀ b : List ℚ, (List.zipWith (fun x y => decide (x < y)) a b).count true =
      ((a.zip b).filter (fun xy => decide (xy.1 < xy.2))).length := by
  induction a with
  | nil => intro b; simp
  | cons x xs ih =>
    intro b
    cases b with
    | nil => simp
    | cons y ys =>
      have hz := ih ys
      by_cases h : x < y
      · simp [List.count_cons, h, hz]
      · simp [List.count_cons, h, hz]

/-- Claim C1: for every model with `L` encoder layers, the enabled builder
returns a grouped result of exactly `2*(L+1)` groups — two per layer of the
reversed `[embeddings] + encoder layers` sequence.  (This settles the claim's
disjunction on its first branch: the head group is discarded, so the count is
`2*(L+1)`, not `2*(L+1)+1`.) -/
theorem c1_enabled_group_count (m : Model) (learning_rate weight_decay f : ℚ) :
    layerwise_learning_rate_decay m learning_rate weight_decay f true =
      LLRDResult.grouped
        (groupsOf (layerwise_learning_rate_decay m learning_rate weight_decay f true)) ∧
    (groupsOf (layerwise_learning_rate_decay m learning_rate weight_decay f true)).length =
      2 * (m.encoderLayers.length + 1) := by
  constructor
  · rw [enabled_eq_buildGroups]
    rfl
  · rw [enabled_eq_buildGroups]
    show (buildGroups weight_decay f learning_rate (reversedLayers m)).length = _
    rw [buildGroups_length]
    simp [reversedLayers]

/-- Claim C2: in the enabled branch, the `k`-th processed layer of the reversed
sequence (`k` 1-indexed from the layer nearest the output; index `k-1` below)
receives learning rate `base * f^k` — so the first processed layer is already
decayed and no layer receives the bare base rate — and for a factor in the
spec's valid range `0 < f < 1` with `base > 0` the rates strictly decrease
from the layer nearest the output down to the embeddings block. -/
theorem c2_lr_geometric_decay (m : Model) (base wd f : ℚ)
    (hb : 0 < base) (hf0 : 0 < f) (hf1 : f < 1) :
    (∀ (k : ℕ) (layer : NamedParams), (reversedLayers m)[k]? = some layer →
      ((groupsOf (layerwise_learning_rate_decay m base wd f true))[2 * k]?.map
          ParamGroup.lr = some (base * f ^ (k + 1)) ∧
        (groupsOf (layerwise_learning_rate_decay m base wd f true))[2 * k + 1]?.map
          ParamGroup.lr = some (base * f ^ (k + 1)) ∧
        base * f ^ (k + 1) < base)) ∧
    (∀ (j k : ℕ) (gj gk : ParamGroup), j < k →
      (groupsOf (layerwise_learning_rate_decay m base wd f true))[2 * j]? = some gj →
      (groupsOf (layerwise_learning_rate_decay m base wd f true))[2 * k]? = some gk →
      gk.lr < gj.lr) := by
  have hgs : groupsOf (layerwise_learning_rate_decay m base wd f true) =
      buildGroups wd f base (reversedLayers m) := by
    rw [enabled_eq_buildGroups]
    rfl
  constructor
  · intro k layer hk
    refine ⟨?_, ?_, ?_⟩
    · rw [hgs, buildGroups_getElem_even wd f _ base k layer hk]
      rfl
    · rw [hgs, buildGroups_getElem_odd wd f _ base k layer hk]
      rfl
    · have hpow : f ^ (k + 1) < 1 := pow_lt_one₀ hf0.le hf1 (Nat.succ_ne_zero k)
      have := mul_lt_mul_of_pos_left hpow hb
      simpa using this
  · intro j k gj gk hjk hj hk
    rw [hgs] at hj hk
    have h1 := buildGroups_lr wd f (reversedLayers m) base (2 * j) gj hj
    have h2 := buildGroups_lr wd f (reversedLayers m) base (2 * k) gk hk
    have hd1 : 2 * j / 2 = j := by omega
    have hd2 : 2 * k / 2 = k := by omega
    rw [hd1] at h1
    rw [hd2] at h2
    rw [h1, h2]
    have hpow : f ^ (k + 1) < f ^ (j + 1) :=
      pow_lt_pow_right_of_lt_one₀ hf0 hf1 (by omega)
    exact mul_lt_mul_of_pos_left hpow hb

/-- Witness for C2 at a concrete model and inputs. -/
theorem c2_lr_geometric_decay_witness :
    ((groupsOf (layerwise_learning_rate_decay witModel 1 (1/100) (1/2) true))[0]?.map
        ParamGroup.lr = some (1 * (1/2 : ℚ) ^ (0 + 1)) ∧
      (groupsOf (layerwise_learning_rate_decay witModel 1 (1/100) (1/2) true))[1]?.map
        ParamGroup.lr = some (1 * (1/2 : ℚ) ^ (0 + 1)) ∧
      (1 : ℚ) * (1/2 : ℚ) ^ (0 + 1) < 1) :=
  (c2_lr_geometric_decay witModel 1 (1/100) (1/2) (by norm_num) (by norm_num)
    (by norm_num)).1 0 witEncoderLayer rfl

/-- Claim C3 (amended): in the enabled branch the union of the groups'
parameter sets equals the backbone's parameters (embeddings plus encoder
layers) — the head's parameters appear in no group, having been discarded with
the overwritten head group — and, for a model whose parameters are pairwise
distinct handles, every backbone parameter lies in exactly one group. -/
theorem c3_group_partition_amended (m : Model) (base wd f : ℚ)
    (hnd : m.backboneParams.Nodup)
    (hdisj : ∀ p ∈ m.fcParams, p ∉ m.backboneParams) :
    (∀ p : Param,
      (∃ g ∈ groupsOf (layerwise_learning_rate_decay m base wd f true), p ∈ g.params) ↔
        p ∈ m.backboneParams) ∧
    (∀ p ∈ m.backboneParams,
      ((groupsOf (layerwise_learning_rate_decay m base wd f true)).filter
        (fun g => decide (p ∈ g.params))).length = 1) ∧
    (∀ p ∈ m.fcParams,
      ∀ g ∈ groupsOf (layerwise_learning_rate_decay m base wd f true), p ∉ g.params) := by
  have hperm := enabled_params_perm m base wd f
  have hiff : ∀ p : Param,
      (∃ g ∈ groupsOf (layerwise_learning_rate_decay m base wd f true), p ∈ g.params) ↔
        p ∈ m.backboneParams := by
    intro p
    constructor
    · rintro ⟨g, hg, hpg⟩
      exact mem_enabled_group_backbone m base wd f g p hg hpg
    · intro hp
      have hmem : p ∈ ((groupsOf (layerwise_learning_rate_decay m base wd f true)).map
          ParamGroup.params).flatten := hperm.mem_iff.2 hp
      rw [List.mem_flatten] at hmem
      obtain ⟨l, hl, hpl⟩ := hmem
      rw [List.mem_map] at hl
      obtain ⟨g, hg, rfl⟩ := hl
      exact ⟨g, hg, hpl⟩
  refine ⟨hiff, ?_, ?_⟩
  · intro p hp
    have hcount : ((groupsOf (layerwise_learning_rate_decay m base wd f true)).map
        ParamGroup.params).flatten.count p = 1 := by
      rw [hperm.count_eq p]
      exact List.count_eq_one_of_mem hnd hp
    have hsum : ((groupsOf (layerwise_learning_rate_decay m base wd f true)).map
        (fun g => g.params.count p)).sum = 1 := by
      have hflat := List.count_flatten p
        ((groupsOf (layerwise_learning_rate_decay m base wd f true)).map ParamGroup.params)
      rw [hcount] at hflat
      rw [List.map_map] at hflat
      simpa [Function.comp] using hflat.symm
    have hle := length_filter_le_sum_count p
      (groupsOf (layerwise_learning_rate_decay m base wd f true))
    rw [hsum] at hle
    obtain ⟨g, hg, hpg⟩ := (hiff p).2 hp
    have hmemf : g ∈ (groupsOf (layerwise_learning_rate_decay m base wd f true)).filter
        (fun g => decide (p ∈ g.params)) :=
      List.mem_filter.2 ⟨hg, by simp [hpg]⟩
    have hpos : 0 < ((groupsOf (layerwise_learning_rate_decay m base wd f true)).filter
        (fun g => decide (p ∈ g.params))).length :=
      List.length_pos.2 (List.ne_nil_of_mem hmemf)
    omega
  · intro p hp g hg hpg
    exact hdisj p hp (mem_enabled_group_backbone m base wd f g p hg hpg)

/-- Witness for C3 (amended) at a concrete model. -/
theorem c3_group_partition_amended_witness :
    (∀ p : Param,
      (∃ g ∈ groupsOf (layerwise_learning_rate_decay witModel 1 (1/100) (7/10) true),
        p ∈ g.params) ↔ p ∈ witModel.backboneParams) ∧
    (∀ p ∈ witModel.backboneParams,
      ((groupsOf (layerwise_learning_rate_decay witModel 1 (1/100) (7/10) true)).filter
        (fun g => decide (p ∈ g.params))).length = 1) ∧
    (∀ p ∈ witModel.fcParams,
      ∀ g ∈ groupsOf (layerwise_learning_rate_decay witModel 1 (1/100) (7/10) true),
        p ∉ g.params) :=
  c3_group_partition_amended witModel 1 (1/100) (7/10) (by decide) (by decide)

/-- Counterexample to C3 as stated: the head parameter `witParam 0` is a
trainable parameter of the model, yet it lies in none of the returned groups,
so the union of the groups is not the backbone plus the head. -/
theorem c3_counterexample :
    witParam 0 ∈ witModel.trainableParameters ∧
    witParam 0 ∈ witModel.fcParams ∧
    ∀ g ∈ groupsOf (layerwise_learning_rate_decay witModel 1 (1/100) (7/10) true),
      witParam 0 ∉ g.params := by
  refine ⟨by decide, by decide, ?_⟩
  intro g hg hmem
  have hb := mem_enabled_group_backbone witModel 1 (1/100) (7/10) g (witParam 0) hg hmem
  exact absurd hb (by decide)

/-- Claim C4: the head-specific group is built first and then thrown away when
the group list is re-initialized, so (for a model whose head shares no tensor
with the backbone) no returned group holds any head parameter, and the head
group itself is not among the returned groups. -/
theorem c4_head_group_discarded (m : Model) (base wd f : ℚ)
    (hdisj : ∀ p ∈ m.fcParams, p ∉ m.backboneParams) :
    (∀ g ∈ groupsOf (layerwise_learning_rate_decay m base wd f true),
      ∀ p ∈ m.fcParams, p ∉ g.params) ∧
    (m.fcParams ≠ [] →
      headGroup m base wd ∉ groupsOf (layerwise_learning_rate_decay m base wd f true)) := by
  have hmain : ∀ g ∈ groupsOf (layerwise_learning_rate_decay m base wd f true),
      ∀ p ∈ m.fcParams, p ∉ g.params := by
    intro g hg p hp hpg
    exact hdisj p hp (mem_enabled_group_backbone m base wd f g p hg hpg)
  refine ⟨hmain, ?_⟩
  intro hne hmem
  obtain ⟨p, hp⟩ := List.exists_mem_of_ne_nil m.fcParams hne
  exact hmain _ hmem p hp (by simpa [headGroup, Model.fcParams] using hp)

/-- Witness for C4 at a concrete model. -/
theorem c4_head_group_discarded_witness :
    (∀ g ∈ groupsOf (layerwise_learning_rate_decay witModel 1 (1/100) (7/10) true),
      ∀ p ∈ witModel.fcParams, p ∉ g.params) ∧
    (witModel.fcParams ≠ [] →
      headGroup witModel 1 (1/100) ∉
        groupsOf (layerwise_learning_rate_decay witModel 1 (1/100) (7/10) true)) :=
  c4_head_group_discarded witModel 1 (1/100) (7/10) (by decide)

/-- Claim C5: each processed layer's named parameters are split by the
no-decay name test into two disjoint sublists forming exactly the two emitted
groups — the non-exempt one with the input weight decay and the exempt one
with weight decay 0.0, both at the same learning rate — and the two sublists
partition the layer (either may be empty yet is still emitted as a group). -/
theorem c5_layer_two_group_split (m : Model) (base wd f : ℚ) :
    ∀ (k : ℕ) (layer : NamedParams), (reversedLayers m)[k]? = some layer →
      (groupsOf (layerwise_learning_rate_decay m base wd f true))[2 * k]? =
        some ⟨(layer.filter (fun np => !hasNoDecay np.1)).map Prod.snd, wd,
          base * f ^ (k + 1)⟩ ∧
      (groupsOf (layerwise_learning_rate_decay m base wd f true))[2 * k + 1]? =
        some ⟨(layer.filter (fun np => hasNoDecay np.1)).map Prod.snd, 0,
          base * f ^ (k + 1)⟩ ∧
      ((layer.filter (fun np => !hasNoDecay np.1)) ++
        (layer.filter (fun np => hasNoDecay np.1))).Perm layer ∧
      (∀ np ∈ layer.filter (fun np => !hasNoDecay np.1), hasNoDecay np.1 = false) ∧
      (∀ np ∈ layer.filter (fun np => hasNoDecay np.1), hasNoDecay np.1 = true) := by
  intro k layer hk
  have hgs : groupsOf (layerwise_learning_rate_decay m base wd f true) =
      buildGroups wd f base (reversedLayers m) := by
    rw [enabled_eq_buildGroups]
    rfl
  refine ⟨?_, ?_, ?_, ?_, ?_⟩
  · rw [hgs]
    exact buildGroups_getElem_even wd f (reversedLayers m) base k layer hk
  · rw [hgs]
    exact buildGroups_getElem_odd wd f (reversedLayers m) base k layer hk
  · have h := List.filter_append_perm (fun np => !hasNoDecay np.1) layer
    simpa [Bool.not_not] using h
  · intro np hnp
    have := List.of_mem_filter hnp
    simpa using this
  · intro np hnp
    exact (List.mem_filter.1 hnp).2

/-- Witness for C5 at a concrete model, on the layer nearest the output. -/
theorem c5_layer_two_group_split_witness :
    (groupsOf (layerwise_learning_rate_decay witModel 1 (1/100) (7/10) true))[2 * 0]? =
      some ⟨(witEncoderLayer.filter (fun np => !hasNoDecay np.1)).map Prod.snd, 1/100,
        1 * (7/10 : ℚ) ^ (0 + 1)⟩ ∧
    (groupsOf (layerwise_learning_rate_decay witModel 1 (1/100) (7/10) true))[2 * 0 + 1]? =
      some ⟨(witEncoderLayer.filter (fun np => hasNoDecay np.1)).map Prod.snd, 0,
        1 * (7/10 : ℚ) ^ (0 + 1)⟩ ∧
    ((witEncoderLayer.filter (fun np => !hasNoDecay np.1)) ++
      (witEncoderLayer.filter (fun np => hasNoDecay np.1))).Perm witEncoderLayer ∧
    (∀ np ∈ witEncoderLayer.filter (fun np => !hasNoDecay np.1),
      hasNoDecay np.1 = false) ∧
    (∀ np ∈ witEncoderLayer.filter (fun np => hasNoDecay np.1),
      hasNoDecay np.1 = true) :=
  c5_layer_two_group_split witModel 1 (1/100) (7/10) 0 witEncoderLayer rfl

/-- Counterexample to C6 as stated: called with `decay_factor = 0` the builder
does not fail with any validation error — it returns an ordinary group list
(here with learning rate 0 in every group). -/
theorem c6_counterexample :
    layerwise_learning_rate_decay tinyModel 1 (1/100) 0 true =
      LLRDResult.grouped [⟨[witParam 11], 1/100, 0⟩, ⟨[], 0, 0⟩] := by
  have h1 : hasNoDecay "emb.weight" = false := by decide
  rw [enabled_eq_buildGroups]
  simp [reversedLayers, tinyModel, buildGroups, List.filter_cons, h1]

/-- Claim C6 (amended): the builder performs no input validation at all.  Any
`decay_factor`, including `decay_factor ≤ 0`, is accepted: the enabled branch
still returns the usual `2*(L+1)` groups with rates `base * f^(i/2+1)`, and
with `f ≤ 0` and a positive base the very first processed layer already gets a
non-positive learning rate.  (A model missing the backbone attributes would
raise an unhandled Python `AttributeError`, not an `InvalidModelShape` error;
no named error conditions exist.) -/
theorem c6_no_input_validation (m : Model) (base wd f : ℚ)
    (hf : f ≤ 0) (hb : 0 < base) :
    layerwise_learning_rate_decay m base wd f true =
      LLRDResult.grouped (groupsOf (layerwise_learning_rate_decay m base wd f true)) ∧
    (groupsOf (layerwise_learning_rate_decay m base wd f true)).length =
      2 * (m.encoderLayers.length + 1) ∧
    (∀ (i : ℕ) (g : ParamGroup),
      (groupsOf (layerwise_learning_rate_decay m base wd f true))[i]? = some g →
        g.lr = base * f ^ (i / 2 + 1)) ∧
    (∀ g : ParamGroup,
      (groupsOf (layerwise_learning_rate_decay m base wd f true))[0]? = some g →
        g.lr ≤ 0) := by
  have hgs : groupsOf (layerwise_learning_rate_decay m base wd f true) =
      buildGroups wd f base (reversedLayers m) := by
    rw [enabled_eq_buildGroups]
    rfl
  have hlr : ∀ (i : ℕ) (g : ParamGroup),
      (groupsOf (layerwise_learning_rate_decay m base wd f true))[i]? = some g →
        g.lr = base * f ^ (i / 2 + 1) := by
    intro i g hi
    rw [hgs] at hi
    exact buildGroups_lr wd f (reversedLayers m) base i g hi
  refine ⟨?_, ?_, hlr, ?_⟩
  · rw [enabled_eq_buildGroups]
    rfl
  · rw [hgs, buildGroups_length]
    simp [reversedLayers]
  · intro g hg
    have h := hlr 0 g hg
    have h0 : (0 : ℕ) / 2 + 1 = 1 := by norm_num
    rw [h0, pow_one] at h
    rw [h]
    exact mul_nonpos_iff.2 (Or.inl ⟨hb.le, hf⟩)

/-- Witness for C6 (amended) at a concrete model with a negative factor. -/
theorem c6_no_input_validation_witness :
    layerwise_learning_rate_decay tinyModel 1 (1/100) (-1) true =
      LLRDResult.grouped (groupsOf (layerwise_learning_rate_decay tinyModel 1 (1/100) (-1) true)) ∧
    (groupsOf (layerwise_learning_rate_decay tinyModel 1 (1/100) (-1) true)).length =
      2 * (tinyModel.encoderLayers.length + 1) ∧
    (∀ (i : ℕ) (g : ParamGroup),
      (groupsOf (layerwise_learning_rate_decay tinyModel 1 (1/100) (-1) true))[i]? = some g →
        g.lr = 1 * (-1 : ℚ) ^ (i / 2 + 1)) ∧
    (∀ g : ParamGroup,
      (groupsOf (layerwise_learning_rate_decay tinyModel 1 (1/100) (-1) true))[0]? = some g →
        g.lr ≤ 0) :=
  c6_no_input_validation tinyModel 1 (1/100) (-1) (by norm_num) (by norm_num)

/-- Claim C7 (amended): the disabled branch returns the model's full parameter
collection — all registered parameters, trainable or frozen alike, since
`model.parameters()` does not filter on `requires_grad` — ungrouped, with no
learning rate or weight decay attached. -/
theorem c7_disabled_returns_all_parameters (m : Model) (base wd f : ℚ) :
    layerwise_learning_rate_decay m base wd f false = LLRDResult.ungrouped m.parameters ∧
    (∀ p : Param, p ∈ ungroupedOf (layerwise_learning_rate_decay m base wd f false) ↔
      p ∈ m.fcParams ∨ p ∈ m.backboneParams) := by
  constructor
  · rfl
  · intro p
    show p ∈ m.parameters ↔ _
    simp [Model.parameters, Model.fcParams, Model.backboneParams, List.mem_append,
      or_assoc]

/-- Counterexample to C7 as stated: on a model with a frozen head parameter
the disabled branch's parameter set is not the trainable-parameter set — the
frozen parameter is returned as well. -/
theorem c7_counterexample :
    (⟨20, false⟩ : Param) ∈
      ungroupedOf (layerwise_learning_rate_decay frozenModel 1 (1/100) (7/10) false) ∧
    (⟨20, false⟩ : Param) ∉ frozenModel.trainableParameters := by
  constructor
  · decide
  · decide

/-- Claim C8: for equal-length inputs, `update` adds the number of positions
where the first tensor is below the second to `correct` and the position count
to `total`; `compute` is the ratio `correct / total`; and the claim's concrete
instances hold: `update([0.1, 0.9], [0.5, 0.5])` gives `(correct, total) =
(1, 2)` with `compute = 0.5`, and summing worker states `(1, 2)` and `(2, 2)`
gives `(3, 4)` with `compute = 0.75`. -/
theorem c8_accuracy_metric :
    (∀ (s : AccState) (a b : List ℚ), a.length = b.length →
      (s.update a b).correct =
        s.correct + ((a.zip b).filter (fun xy => decide (xy.1 < xy.2))).length ∧
      (s.update a b).total = s.total + a.length) ∧
    (∀ s : AccState, s.compute = (s.correct : ℚ) / (s.total : ℚ)) ∧
    AccState.init.update [1/10, 9/10] [1/2, 1/2] = ⟨1, 2⟩ ∧
    (AccState.init.update [1/10, 9/10] [1/2, 1/2]).compute = 1/2 ∧
    AccState.merge ⟨1, 2⟩ ⟨2, 2⟩ = ⟨3, 4⟩ ∧
    (AccState.merge ⟨1, 2⟩ ⟨2, 2⟩).compute = 3/4 := by
  have hp1 : (1 : ℚ)/10 < 1/2 := by norm_num
  have hp2 : ¬((9 : ℚ)/10 < 1/2) := by norm_num
  have hupd : AccState.init.update [1/10, 9/10] [1/2, 1/2] = ⟨1, 2⟩ := by
    simp [AccState.update, AccState.init, List.count_cons, hp1, hp2]
    norm_num
  refine ⟨?_, fun s => rfl, hupd, ?_, rfl, ?_⟩
  · intro s a b hab
    constructor
    · simp [AccState.update, count_zipWith_lt_eq_filter_zip]
    · simp [AccState.update, List.length_zipWith, hab]
  · rw [hupd]
    show ((1 : ℕ) : ℚ) / ((2 : ℕ) : ℚ) = 1/2
    norm_num
  · show ((3 : ℕ) : ℚ) / ((4 : ℕ) : ℚ) = 3/4
    norm_num

/-- Witness for C8 at concrete update inputs. -/
theorem c8_accuracy_metric_witness :
    (AccState.init.update [1/10, 9/10] [1/2, 1/2]).total = AccState.init.total + 2 := by
  have h := (c8_accuracy_metric.1 AccState.init [1/10, 9/10] [1/2, 1/2] rfl).2
  simpa using h

/-- Counterexample to C9 as stated: on a fast-dev-run config with
`num_workers = 4`, `pin_memory = True` and a truthy `gpus = 1`, `extras` does
not leave every other field unchanged — it also zeroes `trainer.gpus`. -/
theorem c9_counterexample :
    extras cgpu ≠ some ⟨false, false, "run", ⟨true, 1⟩, ⟨false, 0⟩, []⟩ ∧
    extras cgpu = some ⟨false, false, "run", ⟨true, 0⟩, ⟨false, 0⟩, []⟩ := by
  constructor
  · decide
  · decide

/-- Claim C9 (amended): on a config with the fast-dev-run flag set,
`num_workers = 4` and `pin_memory = True` (and not taking the experiment-mode
exit), `extras` zeroes `num_workers`, clears `pin_memory`, and zeroes
`trainer.gpus` whenever it is truthy (leaving it 0 also when already 0); every
other field is left unchanged. -/
theorem c9_fast_dev_run_amended (c : Config)
    (hf : c.trainer.fast_dev_run = true)
    (hw : c.datamodule.num_workers = 4)
    (hp : c.datamodule.pin_memory = true)
    (hx : ¬(c.experiment_mode = true ∧ c.name = "")) :
    extras c = some ⟨c.ignore_warnings, c.experiment_mode, c.name,
      ⟨c.trainer.fast_dev_run, 0⟩, ⟨false, 0⟩, c.others⟩ := by
  unfold extras
  rw [if_neg hx, if_pos hf]
  by_cases hg : c.trainer.gpus = 0
  · simp [hw, hp, hg]
  · simp [hw, hp, hg]

/-- Witness for C9 (amended) at a concrete config. -/
theorem c9_fast_dev_run_amended_witness :
    extras cw9 = some ⟨cw9.ignore_warnings, cw9.experiment_mode, cw9.name,
      ⟨cw9.trainer.fast_dev_run, 0⟩, ⟨false, 0⟩, cw9.others⟩ :=
  c9_fast_dev_run_amended cw9 rfl rfl rfl (by decide)

/-- Claim C10: with the experiment-mode flag set and no name, `extras`
terminates the process (modelled as the `none` result) before performing any
config mutation — no mutated config is ever produced. -/
theorem c10_experiment_mode_exit (c : Config)
    (he : c.experiment_mode = true) (hn : c.name = "") :
    extras c = none := by
  unfold extras
  rw [if_pos ⟨he, hn⟩]

/-- Witness for C10 at a concrete config. -/
theorem c10_experiment_mode_exit_witness : extras cexp = none :=
  c10_experiment_mode_exit cexp rfl rfl
